import Mathlib

/-!
# Verification of the adaptive micro-batching request dispatcher

The repository's `src/` holds a tutorial notebook
(`guides/quick-start/bentoml-quick-start-guide.ipynb`) and a CI descriptor; the
micro-batching core itself (AdaptivePolicy, Batch, RequestQueue, BatchScheduler,
Dispatcher, Orchestrator) is code of the framework that is not under `src/`.
Every definition of that core below is therefore modelled from the specification
(`spec.md`), faithful to its words, and marked as such in its doc comment.
The notebook's recorded invocation transcript is embedded separately at the end.
-/

namespace MicroBatch

/-- Modelled from the spec (§7 error taxonomy): `QueueFullError`,
`RequestCancelledError`, `BatchDispatchError`, `BatchSizeMismatchError`.
(`PolicyConfigError` is a startup-time validation, modelled as the
`PolicyConfig.valid` predicate below.) -/
inductive Err
  | queueFull
  | requestCancelled
  | batchDispatch
  | batchSizeMismatch
  deriving DecidableEq, Repr

/-- Modelled from the spec (§6 configuration surface, §4.4): the configured
bounds and goal of the adaptive policy: `min_batch_size`/`hard_max_batch_size`,
`min_wait_time`/`hard_max_wait_time`, `target_latency`.  Times and latencies are
abstract naturals (milliseconds). -/
structure PolicyConfig where
  min_batch_size : Nat
  hard_max_batch_size : Nat
  min_wait_time : Nat
  hard_max_wait_time : Nat
  target_latency : Nat
  deriving DecidableEq, Repr

/-- Modelled from the spec (§7): `PolicyConfigError` — "invalid configuration
bounds, e.g. `min_batch_size > max_batch_size`, detected at startup, fatal".
A configuration is valid when each `[min, hard_max]` interval is well formed and
a batch may hold at least one request. -/
def PolicyConfig.valid (c : PolicyConfig) : Prop :=
  1 ≤ c.min_batch_size ∧ c.min_batch_size ≤ c.hard_max_batch_size ∧
    c.min_wait_time ≤ c.hard_max_wait_time

instance (c : PolicyConfig) : Decidable c.valid := by
  unfold PolicyConfig.valid; infer_instance

/-- Modelled from the spec (§3 PolicyState): exponentially smoothed observed
latency, exponentially smoothed batch size, current `max_batch_size`, current
`max_wait_time`. -/
structure PolicyState where
  smoothed_latency : Nat
  smoothed_batch_size : Nat
  max_batch_size : Nat
  max_wait_time : Nat
  deriving DecidableEq, Repr

/-- Clamp `x` into the interval `[lo, hi]` (lower bound wins when `hi < lo`). -/
def clampNat (lo hi x : Nat) : Nat :=
  max lo (min hi x)

/-- Modelled from the spec (§4.4):
`observe(batch_size, wait_time, dispatch_latency) -> void`.  Maintains smoothed
averages of recent dispatch latency and achieved batch size; if smoothed latency
is at or below target, increase `max_wait_time` and `max_batch_size` toward
their hard maxima, otherwise decrease them toward their minima; every
adjustment is clamped to the configured `[min, hard_max]` bounds and the step
size is damped proportionally to the latency error.  (`wait_time` is part of
the observability surface (§6) and does not enter the adjustment rule.) -/
def PolicyState.observe (c : PolicyConfig) (s : PolicyState)
    (batch_size wait_time dispatch_latency : Nat) : PolicyState :=
  let sl := (s.smoothed_latency + dispatch_latency) / 2
  let sb := (s.smoothed_batch_size + batch_size) / 2
  let _ := wait_time
  if sl ≤ c.target_latency then
    let step := (c.target_latency - sl) / 2 + 1
    { smoothed_latency := sl
      smoothed_batch_size := sb
      max_batch_size := clampNat c.min_batch_size c.hard_max_batch_size (s.max_batch_size + step)
      max_wait_time := clampNat c.min_wait_time c.hard_max_wait_time (s.max_wait_time + step) }
  else
    let step := (sl - c.target_latency) / 2 + 1
    { smoothed_latency := sl
      smoothed_batch_size := sb
      max_batch_size := clampNat c.min_batch_size c.hard_max_batch_size (s.max_batch_size - step)
      max_wait_time := clampNat c.min_wait_time c.hard_max_wait_time (s.max_wait_time - step) }

/-- Modelled from the spec (§4.4): `current_thresholds() -> (max_batch_size,
max_wait_time)`. -/
def PolicyState.current_thresholds (s : PolicyState) : Nat × Nat :=
  (s.max_batch_size, s.max_wait_time)

/-- Modelled from the spec (§3, §4.4): the start-of-life policy state — no
observations yet, thresholds at their hard maxima (inside the configured
bounds whenever the configuration is valid). -/
def initPolicy (c : PolicyConfig) : PolicyState :=
  { smoothed_latency := 0
    smoothed_batch_size := 0
    max_batch_size := c.hard_max_batch_size
    max_wait_time := c.hard_max_wait_time }

/-- A whole sequence of `observe(batch_size, wait_time, dispatch_latency)`
calls, applied in order. -/
def observeAll (c : PolicyConfig) (s : PolicyState)
    (obs : List (Nat × Nat × Nat)) : PolicyState :=
  obs.foldl (fun st o => st.observe c o.1 o.2.1 o.2.2) s

/-- The clamp invariant of the spec (§4.4, §8): current thresholds stay inside
`[min_batch_size, hard_max_batch_size]` and `[min_wait_time, hard_max_wait_time]`. -/
def PolicyState.inBounds (c : PolicyConfig) (s : PolicyState) : Prop :=
  c.min_batch_size ≤ s.max_batch_size ∧ s.max_batch_size ≤ c.hard_max_batch_size ∧
    c.min_wait_time ≤ s.max_wait_time ∧ s.max_wait_time ≤ c.hard_max_wait_time

instance (c : PolicyConfig) (s : PolicyState) : Decidable (s.inBounds c) := by
  unfold PolicyState.inBounds; infer_instance

/-- Modelled from the spec (§3 Request, §3 lifecycle): a pending request is a
fresh identifier (standing for the caller's completion handle) paired with its
opaque payload.  Payloads are abstract naturals. -/
def Req := Nat × Nat

/-- How a completion slot is resolved (§3 Request): with a result, with an
error, or by cancellation. -/
inductive Resolution
  | ok (out : Nat)
  | err (e : Err)
  | cancelled
  deriving DecidableEq, Repr

/-- Modelled from the spec (§4.3 Dispatcher, §6 inference collaborator
contract): `dispatch(batch) -> BatchResult | error`.  It calls exactly once
into the external inference collaborator `f` with the concatenated ordered
inputs of the batch's requests; `f` returns either an ordered output sequence
or `none` (a failure signal covering the whole call).  A `none` resolves every
request with `BatchDispatchError`; an output sequence of the wrong length
resolves every request with `BatchSizeMismatchError`; otherwise outputs are
scattered to requests by positional correspondence in submission order.  The
returned list pairs each request identifier with its resolution. -/
def dispatch (f : List Nat → Option (List Nat)) (reqs : List (Nat × Nat)) :
    List (Nat × Resolution) :=
  match f (reqs.map Prod.snd) with
  | none => reqs.map (fun r => (r.fst, Resolution.err Err.batchDispatch))
  | some outs =>
      if outs.length = (reqs.map Prod.snd).length then
        List.zipWith (fun r o => (r.fst, Resolution.ok o)) reqs outs
      else
        reqs.map (fun r => (r.fst, Resolution.err Err.batchSizeMismatch))

/-- Modelled from the spec (§6 configuration surface): the scheduler-side
configuration — the policy bounds plus the `queue_capacity` admission bound of
the RequestQueue (§4.1). -/
structure Config where
  pcfg : PolicyConfig
  queue_capacity : Nat
  deriving DecidableEq, Repr

/-- Modelled from the spec (§3 Batch): the open accumulating batch — an ordered
sequence of pending requests (insertion order = submission order), the creation
timestamp (time of first request admitted), and the wait-timer duration taken
from `policy.max_wait_time` when the timer was started (§4.2 EMPTY). -/
structure OpenBatch where
  reqs : List (Nat × Nat)
  created : Nat
  waitLimit : Nat
  deriving DecidableEq, Repr

/-- The reason a batch was cut (§4.2): size reached `max_batch_size`, the
wait-timer fired, or an explicit flush/drain signal. -/
inductive CutKind
  | sizeCut
  | timeoutCut
  | flushCut
  deriving DecidableEq, Repr

/-- One dispatched batch, as recorded at the moment of cut: the cut reason, the
batch's requests as constituted at cut time (their payloads, in order, are the
one input sequence handed to the collaborator by the single `dispatch` call),
the batch's creation timestamp, the cut time, and the thresholds in effect —
`policy.max_batch_size` at the moment of cut and the batch's wait-timer
duration. -/
structure CutRecord where
  kind : CutKind
  reqs : List (Nat × Nat)
  created : Nat
  time : Nat
  thSize : Nat
  thWait : Nat
  deriving DecidableEq, Repr

/-- Modelled from the spec (§2, §5): the whole orchestrated state — the next
fresh request identifier, the open accumulating batch of the BatchScheduler
(`none` in state EMPTY), the process-lifetime PolicyState, the completion-slot
resolutions delivered so far (in order), the record of dispatched batches, and
the admission rejections returned directly to callers (§4.1). -/
structure SysState where
  nextId : Nat
  openB : Option OpenBatch
  pol : PolicyState
  res : List (Nat × Resolution)
  cuts : List CutRecord
  rejects : List (Nat × Err)
  deriving DecidableEq, Repr

/-- The identifiers of the admitted-but-undispatched requests: the contents of
the open batch (the RequestQueue's occupancy — admission hands a request
straight to the scheduler's accumulation step). -/
def pendingIds (s : SysState) : List Nat :=
  match s.openB with
  | none => []
  | some b => b.reqs.map Prod.fst

/-- Number of admitted-but-undispatched requests. -/
def pendingCount (s : SysState) : Nat :=
  (pendingIds s).length

/-- The external stimuli of the core (§2 control flow, §5): a caller submits a
payload at time `t`, a caller cancels a request before dispatch, or the
scheduler's wait-timer fires at time `t`. -/
inductive Event
  | submit (t : Nat) (payload : Nat)
  | cancel (t : Nat) (rid : Nat)
  | timerFire (t : Nat)
  deriving DecidableEq, Repr

/-- Modelled from the spec (§4.2 DISPATCHING, §2 control flow, §5): cut the
open batch `b` at time `t` for reason `kind`, hand it to the Dispatcher (one
collaborator call via `dispatch f`), append the per-request resolutions, and
let the Orchestrator feed the realized batch size, accumulation wait time and
dispatch latency (supplied by the external latency observation `lat`) back to
the AdaptivePolicy.  The scheduler returns to EMPTY for the next cycle. -/
def cutAndDispatch (cfg : Config) (f : List Nat → Option (List Nat))
    (lat : List Nat → Nat) (kind : CutKind) (t : Nat) (b : OpenBatch)
    (s : SysState) : SysState :=
  let c : CutRecord :=
    { kind := kind, reqs := b.reqs, created := b.created, time := t
      thSize := s.pol.max_batch_size, thWait := b.waitLimit }
  { s with
      openB := none
      cuts := s.cuts ++ [c]
      res := s.res ++ dispatch f b.reqs
      pol := s.pol.observe cfg.pcfg b.reqs.length (t - b.created) (lat (b.reqs.map Prod.snd)) }

/-- Modelled from the spec (§4.2 ACCUMULATING): after an admitted request has
been placed in the open batch `b`, check the size threshold — if the batch size
has reached `policy.max_batch_size`, cut at once (size-cut); otherwise keep
accumulating.  This check does not consult the clock, which realizes the §4.2
tie-break: a size-cut takes precedence when the timeout condition is
simultaneously true. -/
def submitInto (cfg : Config) (f : List Nat → Option (List Nat))
    (lat : List Nat → Nat) (t : Nat) (s : SysState) (b : OpenBatch) : SysState :=
  if s.pol.max_batch_size ≤ b.reqs.length then
    cutAndDispatch cfg f lat CutKind.sizeCut t b
      { s with nextId := s.nextId + 1, openB := some b }
  else
    { s with nextId := s.nextId + 1, openB := some b }

/-- Modelled from the spec (§4.1, §4.2, §5): one step of the core on one
external event.

* `submit t p` — the RequestQueue's bounded admission check: if the queue
  already holds `queue_capacity` requests the submission fails immediately with
  `QueueFullError` (returned directly to the caller, recorded in `rejects`);
  otherwise the request is admitted with a fresh identifier and appended to the
  open batch (creating it, with a wait-timer of duration
  `policy.max_wait_time`, when the scheduler is in EMPTY), followed by the
  size-threshold check of `submitInto`.
* `cancel t rid` — if `rid` is still pending, it is removed from the open
  batch, its completion slot is resolved by cancellation, and it no longer
  counts toward the size threshold; an empty remainder returns the scheduler
  to EMPTY.  Cancelling a request that is not pending is a no-op.
* `timerFire t` — the wait-timer: the open batch is cut (timeout-cut) when the
  elapsed time since its creation has reached its wait-timer duration. -/
def step (cfg : Config) (f : List Nat → Option (List Nat))
    (lat : List Nat → Nat) (s : SysState) (e : Event) : SysState :=
  match e with
  | .submit t p =>
      if cfg.queue_capacity ≤ pendingCount s then
        { s with rejects := s.rejects ++ [(t, Err.queueFull)] }
      else
        match s.openB with
        | none =>
            submitInto cfg f lat t s
              { reqs := [(s.nextId, p)], created := t, waitLimit := s.pol.max_wait_time }
        | some b0 =>
            submitInto cfg f lat t s
              { b0 with reqs := b0.reqs ++ [(s.nextId, p)] }
  | .cancel _ rid =>
      match s.openB with
      | none => s
      | some b =>
          if rid ∈ b.reqs.map Prod.fst then
            let kept := b.reqs.filter (fun r => r.fst != rid)
            let s2 : SysState := { s with res := s.res ++ [(rid, Resolution.cancelled)] }
            if kept.isEmpty then { s2 with openB := none }
            else { s2 with openB := some { b with reqs := kept } }
          else
            s
  | .timerFire t =>
      match s.openB with
      | none => s
      | some b =>
          if b.created + b.waitLimit ≤ t then
            cutAndDispatch cfg f lat CutKind.timeoutCut t b s
          else
            s

/-- Modelled from the spec (§3 lifecycle, §4.4): the start state — no open
batch, no requests, the policy at its initial thresholds. -/
def initState (cfg : Config) : SysState :=
  { nextId := 0
    openB := none
    pol := initPolicy cfg.pcfg
    res := []
    cuts := []
    rejects := [] }

/-- Run the core from its start state on a sequence of external events. -/
def run (cfg : Config) (f : List Nat → Option (List Nat))
    (lat : List Nat → Nat) (es : List Event) : SysState :=
  es.foldl (step cfg f lat) (initState cfg)

/-- Modelled from the spec (§4.2 SHUTTING_DOWN, §9): drain — flush the open
batch, if any, at time `t` and stop accepting new requests. -/
def drain (cfg : Config) (f : List Nat → Option (List Nat))
    (lat : List Nat → Nat) (t : Nat) (s : SysState) : SysState :=
  match s.openB with
  | none => s
  | some b => cutAndDispatch cfg f lat CutKind.flushCut t b s

/-- How many resolutions in the list `res` belong to request `rid`. -/
def countRes (res : List (Nat × Resolution)) (rid : Nat) : Nat :=
  (res.map Prod.fst).count rid

/-- How many times the completion slot of request `rid` has been resolved. -/
def resCount (s : SysState) (rid : Nat) : Nat :=
  countRes s.res rid

/-- The reachability invariant of one orchestrated endpoint (spec §3, §5, §8):
policy thresholds in bounds; pending identifiers fresh, distinct, unresolved;
every admitted non-pending identifier resolved exactly once; cancelled
requests absent from every dispatched batch; size-cuts exactly at threshold;
timeout-cuts after the wait-timer and strictly under the size threshold; the
queue occupancy within `queue_capacity`; the open batch strictly under the
size threshold. -/
structure Inv (cfg : Config) (s : SysState) : Prop where
  polBounds : s.pol.inBounds cfg.pcfg
  pendLt : ∀ rid ∈ pendingIds s, rid < s.nextId
  pendNodup : (pendingIds s).Nodup
  oncePend : ∀ rid ∈ pendingIds s, resCount s rid = 0
  onceDone : ∀ rid, rid < s.nextId → rid ∉ pendingIds s → resCount s rid = 1
  freshNone : ∀ rid, s.nextId ≤ rid → resCount s rid = 0
  cancelGone : ∀ rid, (rid, Resolution.cancelled) ∈ s.res →
      ∀ c ∈ s.cuts, rid ∉ c.reqs.map Prod.fst
  cutSizeEq : ∀ c ∈ s.cuts, c.kind = CutKind.sizeCut → c.reqs.length = c.thSize
  cutTimeoutLe : ∀ c ∈ s.cuts, c.kind = CutKind.timeoutCut →
      c.thWait ≤ c.time - c.created ∧ c.reqs.length < c.thSize
  cutsLt : ∀ c ∈ s.cuts, ∀ rid ∈ c.reqs.map Prod.fst, rid < s.nextId
  pendNotCut : ∀ rid ∈ pendingIds s, ∀ c ∈ s.cuts, rid ∉ c.reqs.map Prod.fst
  openLt : ∀ b, s.openB = some b → b.reqs.length < s.pol.max_batch_size
  pendCap : pendingCount s ≤ cfg.queue_capacity

/-- A demonstration configuration (§8 scenarios): `max_batch_size = 4`,
`max_wait_time = 50` ms, ample queue capacity. -/
def cfgDemo : Config :=
  { pcfg := { min_batch_size := 1, hard_max_batch_size := 4, min_wait_time := 1,
              hard_max_wait_time := 50, target_latency := 10 }
    queue_capacity := 100 }

/-- A demonstration inference collaborator: maps each input `x` to `x + 1`. -/
def fDemo : List Nat → Option (List Nat) := fun xs => some (xs.map (fun x => x + 1))

/-- A demonstration latency observation: every dispatch takes 5 ms. -/
def latDemo : List Nat → Nat := fun _ => 5

/-- Four requests submitted within 1 ms of each other (§8 scenario). -/
def esFour : List Event := [.submit 0 10, .submit 0 11, .submit 1 12, .submit 1 13]

/-- Two requests submitted, then silence until the wait-timer fires (§8 scenario). -/
def esTwo : List Event := [.submit 0 20, .submit 1 21, .timerFire 50]

/-- Two requests submitted, the first cancelled before the cut (§8 scenario). -/
def esCancel : List Event := [.submit 0 7, .submit 0 8, .cancel 1 0, .timerFire 50]

/-- Two requests submitted and still accumulating at drain time. -/
def esOpen : List Event := [.submit 0 5, .submit 1 6]

/-- A configuration with `queue_capacity = 1`. -/
def cfgSmall : Config :=
  { pcfg := { min_batch_size := 1, hard_max_batch_size := 4, min_wait_time := 1,
              hard_max_wait_time := 50, target_latency := 10 }
    queue_capacity := 1 }

/-- A policy configuration for exercising threshold bounds. -/
def cfgPol : PolicyConfig :=
  { min_batch_size := 2, hard_max_batch_size := 8, min_wait_time := 1,
    hard_max_wait_time := 100, target_latency := 10 }

/-- Observation sequence with extreme latency values. -/
def obsExtreme : List (Nat × Nat × Nat) :=
  [(5, 3, 1000000000), (1, 1, 0), (8, 2, 999999999), (4, 4, 1)]

end MicroBatch

namespace QuickStart

/-!
The quick-start notebook
(`src/guides/quick-start/bentoml-quick-start-guide.ipynb`) exercises the
tutorial's `IrisClassifier.predict` service through several invocation paths
and records each cell's output.  The transcript below embeds those recorded
invocations: the input sent and the prediction printed by the notebook. -/

/-- The invocation paths of the notebook that run `predict` on the fixed input
`[[5.1, 3.5, 1.4, 0.2]]` (which is `[X[0]]`, the first row of the iris
dataset, in the two in-process cells). -/
inductive InvokePath
  | loadedService
  | installedPackage
  | cliRun
  | bentomlCliRun
  | lambdaEndpoint
  deriving DecidableEq, Repr

/-- The input recorded for each invocation path: `bento_svc.predict([X[0]])`
(cell 9), `installed_svc.predict([X[0]])` (cell 11),
`IrisClassifier run predict --input=[[5.1, 3.5, 1.4, 0.2]]` (cell 14),
`bentoml run IrisClassifier:latest predict --input=[[5.1, 3.5, 1.4, 0.2]]`
(cell 16), and `curl --data [[5.1, 3.5, 1.4, 0.2]] .../Prod/predict`
(cell 29). -/
def recordedInput : InvokePath → List (List ℚ)
  | .loadedService => [[5.1, 3.5, 1.4, 0.2]]
  | .installedPackage => [[5.1, 3.5, 1.4, 0.2]]
  | .cliRun => [[5.1, 3.5, 1.4, 0.2]]
  | .bentomlCliRun => [[5.1, 3.5, 1.4, 0.2]]
  | .lambdaEndpoint => [[5.1, 3.5, 1.4, 0.2]]

/-- The prediction recorded for each invocation path in the notebook's
outputs: `memmap([0])` (cell 9), `memmap([0])` (cell 11), `[0]` (cell 14
stdout), `[0]` (cell 16 stdout), and `[0]` (the HTTP 200 body of cell 29). -/
def recordedPrediction : InvokePath → List ℤ
  | .loadedService => [0]
  | .installedPackage => [0]
  | .cliRun => [0]
  | .bentomlCliRun => [0]
  | .lambdaEndpoint => [0]

end QuickStart

namespace MicroBatch

theorem clampNat_le (lo hi x : Nat) (h : lo ≤ hi) : clampNat lo hi x ≤ hi := by
  unfold clampNat
  exact max_le h (min_le_left _ _)

theorem le_clampNat (lo hi x : Nat) : lo ≤ clampNat lo hi x :=
  le_max_left _ _

theorem observe_inBounds (c : PolicyConfig) (s : PolicyState)
    (bs wt dl : Nat) (hc : c.valid) :
    (s.observe c bs wt dl).inBounds c := by
  obtain ⟨-, hb, hw⟩ := hc
  unfold PolicyState.observe PolicyState.inBounds
  dsimp only
  split <;>
    exact ⟨le_clampNat _ _ _, clampNat_le _ _ _ hb, le_clampNat _ _ _, clampNat_le _ _ _ hw⟩

theorem observeAll_inBounds (c : PolicyConfig) (s : PolicyState)
    (obs : List (Nat × Nat × Nat)) (hc : c.valid) (hs : s.inBounds c) :
    (observeAll c s obs).inBounds c := by
  induction obs generalizing s with
  | nil => exact hs
  | cons o rest ih => exact ih _ (observe_inBounds c s o.1 o.2.1 o.2.2 hc)

theorem initPolicy_inBounds (c : PolicyConfig) (hc : c.valid) :
    (initPolicy c).inBounds c := by
  obtain ⟨-, hb, hw⟩ := hc
  exact ⟨hb, le_refl _, hw, le_refl _⟩

theorem dispatch_none (f : List Nat → Option (List Nat)) (reqs : List (Nat × Nat))
    (h : f (reqs.map Prod.snd) = none) :
    dispatch f reqs = reqs.map (fun r => (r.fst, Resolution.err Err.batchDispatch)) := by
  unfold dispatch
  rw [h]

theorem dispatch_mismatch (f : List Nat → Option (List Nat)) (reqs : List (Nat × Nat))
    (outs : List Nat) (h : f (reqs.map Prod.snd) = some outs)
    (hl : outs.length ≠ (reqs.map Prod.snd).length) :
    dispatch f reqs = reqs.map (fun r => (r.fst, Resolution.err Err.batchSizeMismatch)) := by
  unfold dispatch
  rw [h]
  simp only [if_neg hl]

theorem dispatch_success (f : List Nat → Option (List Nat)) (reqs : List (Nat × Nat))
    (outs : List Nat) (h : f (reqs.map Prod.snd) = some outs)
    (hl : outs.length = (reqs.map Prod.snd).length) :
    dispatch f reqs = List.zipWith (fun r o => (r.fst, Resolution.ok o)) reqs outs := by
  unfold dispatch
  rw [h]
  simp only [if_pos hl]

theorem zipWith_getElem? {α β γ : Type} (g : α → β → γ) :
    ∀ (as : List α) (bs : List β) (i : Nat) (a : α) (b : β),
      as[i]? = some a → bs[i]? = some b →
      (List.zipWith g as bs)[i]? = some (g a b) := by
  intro as
  induction as with
  | nil => intro bs i a b ha; simp at ha
  | cons x xs ih =>
      intro bs i a b ha hb
      cases bs with
      | nil => simp at hb
      | cons y ys =>
          cases i with
          | zero =>
              simp at ha hb
              simp [ha, hb]
          | succ j =>
              simp only [List.zipWith_cons_cons, List.getElem?_cons_succ] at ha hb ⊢
              exact ih ys j a b ha hb

theorem map_fst_zipWith_ok (reqs : List (Nat × Nat)) (outs : List Nat)
    (hl : outs.length = reqs.length) :
    (List.zipWith (fun (r : Nat × Nat) (o : Nat) => (r.fst, Resolution.ok o)) reqs outs).map
        Prod.fst = reqs.map Prod.fst := by
  induction reqs generalizing outs with
  | nil => simp
  | cons r rs ih =>
      cases outs with
      | nil => simp at hl
      | cons o os =>
          simp only [List.zipWith_cons_cons, List.map_cons, List.cons.injEq, true_and]
          exact ih os (by simpa using hl)

/-- The identifiers carried through `dispatch` are exactly the batch's request
identifiers, in order, in every branch. -/
theorem dispatch_map_fst (f : List Nat → Option (List Nat)) (reqs : List (Nat × Nat)) :
    (dispatch f reqs).map Prod.fst = reqs.map Prod.fst := by
  unfold dispatch
  cases hf : f (reqs.map Prod.snd) with
  | none => simp
  | some outs =>
      dsimp only
      split
      · rename_i hl
        rw [List.length_map] at hl
        exact map_fst_zipWith_ok reqs outs hl
      · simp

theorem countRes_append (r1 r2 : List (Nat × Resolution)) (rid : Nat) :
    countRes (r1 ++ r2) rid = countRes r1 rid + countRes r2 rid := by
  unfold countRes
  rw [List.map_append, List.count_append]

theorem countRes_dispatch (f : List Nat → Option (List Nat))
    (reqs : List (Nat × Nat)) (rid : Nat) :
    countRes (dispatch f reqs) rid = (reqs.map Prod.fst).count rid := by
  unfold countRes
  rw [dispatch_map_fst]

theorem countRes_pos (res : List (Nat × Resolution)) (rid : Nat) (x : Resolution)
    (h : (rid, x) ∈ res) : 0 < countRes res rid :=
  List.count_pos_iff.mpr (List.mem_map.mpr ⟨(rid, x), h, rfl⟩)

theorem mem_zipWith_ok (reqs : List (Nat × Nat)) (outs : List Nat) (p : Nat × Resolution)
    (h : p ∈ List.zipWith (fun (r : Nat × Nat) (o : Nat) => (r.fst, Resolution.ok o)) reqs outs) :
    ∃ o, p.snd = Resolution.ok o := by
  induction reqs generalizing outs with
  | nil => simp at h
  | cons r rs ih =>
      cases outs with
      | nil => simp at h
      | cons o os =>
          simp only [List.zipWith_cons_cons, List.mem_cons] at h
          rcases h with h | h
          · exact ⟨o, by rw [h]⟩
          · exact ih os h

/-- `dispatch` resolves with results or errors, never by cancellation. -/
theorem dispatch_not_cancelled (f : List Nat → Option (List Nat))
    (reqs : List (Nat × Nat)) (rid : Nat) :
    (rid, Resolution.cancelled) ∉ dispatch f reqs := by
  intro h
  unfold dispatch at h
  cases hf : f (reqs.map Prod.snd) with
  | none =>
      rw [hf] at h
      obtain ⟨r, -, hr⟩ := List.mem_map.mp h
      exact Resolution.noConfusion (congrArg Prod.snd hr)
  | some outs =>
      rw [hf] at h
      dsimp only at h
      split at h
      · obtain ⟨o, ho⟩ := mem_zipWith_ok reqs outs _ h
        exact Resolution.noConfusion ho
      · obtain ⟨r, -, hr⟩ := List.mem_map.mp h
        exact Resolution.noConfusion (congrArg Prod.snd hr)

theorem map_fst_filter_ne (l : List (Nat × Nat)) (rid : Nat) :
    (l.filter (fun r => r.fst != rid)).map Prod.fst =
      (l.map Prod.fst).filter (fun x => x != rid) := by
  induction l with
  | nil => rfl
  | cons r rs ih =>
      by_cases h : r.fst = rid
      · simp [List.filter_cons, h, ih]
      · simp [List.filter_cons, bne_iff_ne, h, ih]

theorem init_inv (cfg : Config) (hv : cfg.pcfg.valid) : Inv cfg (initState cfg) := by
  refine ⟨initPolicy_inBounds cfg.pcfg hv, ?_, ?_, ?_, ?_, ?_, ?_, ?_, ?_, ?_, ?_, ?_, ?_⟩ <;>
    simp [initState, pendingIds, pendingCount, resCount, countRes]

theorem cutAndDispatch_inv (cfg : Config) (f : List Nat → Option (List Nat))
    (lat : List Nat → Nat) (k : CutKind) (t : Nat) (b : OpenBatch) (s : SysState)
    (hv : cfg.pcfg.valid)
    (hlt : ∀ rid ∈ b.reqs.map Prod.fst, rid < s.nextId)
    (hnd : (b.reqs.map Prod.fst).Nodup)
    (hpend0 : ∀ rid ∈ b.reqs.map Prod.fst, resCount s rid = 0)
    (hdone : ∀ rid, rid < s.nextId → rid ∉ b.reqs.map Prod.fst → resCount s rid = 1)
    (hfresh : ∀ rid, s.nextId ≤ rid → resCount s rid = 0)
    (hcg : ∀ rid, (rid, Resolution.cancelled) ∈ s.res → ∀ c ∈ s.cuts, rid ∉ c.reqs.map Prod.fst)
    (hcs : ∀ c ∈ s.cuts, c.kind = CutKind.sizeCut → c.reqs.length = c.thSize)
    (hct : ∀ c ∈ s.cuts, c.kind = CutKind.timeoutCut →
        c.thWait ≤ c.time - c.created ∧ c.reqs.length < c.thSize)
    (hclt : ∀ c ∈ s.cuts, ∀ rid ∈ c.reqs.map Prod.fst, rid < s.nextId)
    (hks : k = CutKind.sizeCut → b.reqs.length = s.pol.max_batch_size)
    (hkt : k = CutKind.timeoutCut →
        b.waitLimit ≤ t - b.created ∧ b.reqs.length < s.pol.max_batch_size) :
    Inv cfg (cutAndDispatch cfg f lat k t b s) := by
  have hresEq : ∀ rid, resCount (cutAndDispatch cfg f lat k t b s) rid =
      resCount s rid + (b.reqs.map Prod.fst).count rid := by
    intro rid
    show countRes (s.res ++ dispatch f b.reqs) rid = _
    rw [countRes_append, countRes_dispatch]
    rfl
  have hpendE : pendingIds (cutAndDispatch cfg f lat k t b s) = [] := rfl
  have hcuts : (cutAndDispatch cfg f lat k t b s).cuts = s.cuts ++
      [{ kind := k, reqs := b.reqs, created := b.created, time := t,
         thSize := s.pol.max_batch_size, thWait := b.waitLimit }] := rfl
  refine ⟨?_, ?_, ?_, ?_, ?_, ?_, ?_, ?_, ?_, ?_, ?_, ?_, ?_⟩
  · exact observe_inBounds cfg.pcfg s.pol b.reqs.length (t - b.created)
      (lat (b.reqs.map Prod.snd)) hv
  · intro rid h
    rw [hpendE] at h
    exact absurd h (List.not_mem_nil rid)
  · rw [hpendE]
    exact List.nodup_nil
  · intro rid h
    rw [hpendE] at h
    exact absurd h (List.not_mem_nil rid)
  · intro rid hridlt hnot
    rw [hresEq]
    by_cases hmem : rid ∈ b.reqs.map Prod.fst
    · rw [hpend0 rid hmem, List.count_eq_one_of_mem hnd hmem]
    · rw [hdone rid hridlt hmem, List.count_eq_zero.mpr hmem]
  · intro rid hle
    rw [hresEq]
    have hle' : s.nextId ≤ rid := hle
    have hnm : rid ∉ b.reqs.map Prod.fst := by
      intro hmem
      exact absurd (hlt rid hmem) (by omega)
    rw [hfresh rid hle', List.count_eq_zero.mpr hnm]
  · intro rid hmem c hc
    have hmem' : (rid, Resolution.cancelled) ∈ s.res := by
      have hsplit : (rid, Resolution.cancelled) ∈ s.res ++ dispatch f b.reqs := hmem
      rcases List.mem_append.mp hsplit with h | h
      · exact h
      · exact absurd h (dispatch_not_cancelled f b.reqs rid)
    rw [hcuts] at hc
    rcases List.mem_append.mp hc with h | h
    · exact hcg rid hmem' c h
    · have hcr := List.mem_singleton.mp h
      subst hcr
      show rid ∉ b.reqs.map Prod.fst
      intro hbad
      have h0 := hpend0 rid hbad
      have h1 := countRes_pos s.res rid Resolution.cancelled hmem'
      unfold resCount at h0
      omega
  · intro c hc hk
    rw [hcuts] at hc
    rcases List.mem_append.mp hc with h | h
    · exact hcs c h hk
    · have hcr := List.mem_singleton.mp h
      subst hcr
      exact hks hk
  · intro c hc hk
    rw [hcuts] at hc
    rcases List.mem_append.mp hc with h | h
    · exact hct c h hk
    · have hcr := List.mem_singleton.mp h
      subst hcr
      exact hkt hk
  · intro c hc rid hrid
    rw [hcuts] at hc
    rcases List.mem_append.mp hc with h | h
    · exact hclt c h rid hrid
    · have hcr := List.mem_singleton.mp h
      subst hcr
      exact hlt rid hrid
  · intro rid h
    rw [hpendE] at h
    exact absurd h (List.not_mem_nil rid)
  · intro b' h
    exact Option.noConfusion h
  · unfold pendingCount
    rw [hpendE]
    exact Nat.zero_le _

theorem submitInto_inv (cfg : Config) (f : List Nat → Option (List Nat))
    (lat : List Nat → Nat) (t : Nat) (s : SysState) (b : OpenBatch)
    (hv : cfg.pcfg.valid) (hs : Inv cfg s)
    (hbl : ∀ rid ∈ b.reqs.map Prod.fst, rid < s.nextId + 1)
    (hbnd : (b.reqs.map Prod.fst).Nodup)
    (hb0 : ∀ rid ∈ b.reqs.map Prod.fst, resCount s rid = 0)
    (hdoneb : ∀ rid, rid < s.nextId + 1 → rid ∉ b.reqs.map Prod.fst → resCount s rid = 1)
    (hnotcut : ∀ rid ∈ b.reqs.map Prod.fst, ∀ c ∈ s.cuts, rid ∉ c.reqs.map Prod.fst)
    (hlen : b.reqs.length ≤ s.pol.max_batch_size)
    (hcap : b.reqs.length ≤ cfg.queue_capacity) :
    Inv cfg (submitInto cfg f lat t s b) := by
  unfold submitInto
  by_cases hcut : s.pol.max_batch_size ≤ b.reqs.length
  · rw [if_pos hcut]
    refine cutAndDispatch_inv cfg f lat CutKind.sizeCut t b _ hv
      hbl hbnd hb0 hdoneb ?_ hs.cancelGone hs.cutSizeEq hs.cutTimeoutLe
      ?_ (fun _ => Nat.le_antisymm hlen hcut) (fun h => CutKind.noConfusion h)
    · intro rid hle
      have hle' : s.nextId + 1 ≤ rid := hle
      exact hs.freshNone rid (by omega)
    · intro c hc rid hrid
      exact Nat.lt_succ_of_lt (hs.cutsLt c hc rid hrid)
  · rw [if_neg hcut]
    have hpendE : pendingIds { s with nextId := s.nextId + 1, openB := some b } =
        b.reqs.map Prod.fst := rfl
    refine ⟨hs.polBounds, ?_, ?_, ?_, ?_, ?_, hs.cancelGone, hs.cutSizeEq, hs.cutTimeoutLe,
      ?_, ?_, ?_, ?_⟩
    · intro rid h
      rw [hpendE] at h
      exact hbl rid h
    · rw [hpendE]
      exact hbnd
    · intro rid h
      rw [hpendE] at h
      exact hb0 rid h
    · intro rid hridlt hnot
      rw [hpendE] at hnot
      exact hdoneb rid hridlt hnot
    · intro rid hle
      have hle' : s.nextId + 1 ≤ rid := hle
      exact hs.freshNone rid (by omega)
    · intro c hc rid hrid
      exact Nat.lt_succ_of_lt (hs.cutsLt c hc rid hrid)
    · intro rid h
      rw [hpendE] at h
      exact hnotcut rid h
    · intro b' h
      cases h
      show b.reqs.length < s.pol.max_batch_size
      omega
    · unfold pendingCount
      rw [hpendE, List.length_map]
      exact hcap

theorem mem_filter_ne (l : List Nat) (a rid : Nat) :
    a ∈ l.filter (fun x => x != rid) ↔ a ∈ l ∧ a ≠ rid := by
  simp [List.mem_filter, bne_iff_ne]

theorem step_inv (cfg : Config) (f : List Nat → Option (List Nat)) (lat : List Nat → Nat)
    (s : SysState) (e : Event) (hv : cfg.pcfg.valid) (hs : Inv cfg s) :
    Inv cfg (step cfg f lat s e) := by
  have hmin1 : 1 ≤ s.pol.max_batch_size := by
    have h1 := hv.1
    have h2 := hs.polBounds.1
    omega
  cases e with
  | submit t p =>
      simp only [step]
      by_cases hfull : cfg.queue_capacity ≤ pendingCount s
      · rw [if_pos hfull]
        exact ⟨hs.polBounds, hs.pendLt, hs.pendNodup, hs.oncePend, hs.onceDone, hs.freshNone,
          hs.cancelGone, hs.cutSizeEq, hs.cutTimeoutLe, hs.cutsLt, hs.pendNotCut, hs.openLt,
          hs.pendCap⟩
      · rw [if_neg hfull]
        cases hopen : s.openB with
        | none =>
            have hpend : pendingIds s = [] := by
              unfold pendingIds
              rw [hopen]
            refine submitInto_inv cfg f lat t s _ hv hs ?_ ?_ ?_ ?_ ?_ ?_ ?_
            · intro rid h
              simp only [List.map_cons, List.map_nil, List.mem_singleton] at h
              omega
            · simp
            · intro rid h
              simp only [List.map_cons, List.map_nil, List.mem_singleton] at h
              rw [h]
              exact hs.freshNone s.nextId (Nat.le_refl _)
            · intro rid hridlt hnot
              simp only [List.map_cons, List.map_nil, List.mem_singleton] at hnot
              refine hs.onceDone rid (by omega) ?_
              rw [hpend]
              exact List.not_mem_nil rid
            · intro rid h c hc hbad
              simp only [List.map_cons, List.map_nil, List.mem_singleton] at h
              subst h
              exact absurd (hs.cutsLt c hc _ hbad) (Nat.lt_irrefl _)
            · simpa using hmin1
            · have hcap0 : pendingCount s = 0 := by
                unfold pendingCount
                rw [hpend]
                rfl
              simp only [List.length_cons, List.length_nil]
              omega
        | some b0 =>
            have hpend : pendingIds s = b0.reqs.map Prod.fst := by
              unfold pendingIds
              rw [hopen]
            have hmapb : (({ b0 with reqs := b0.reqs ++ [(s.nextId, p)] } : OpenBatch).reqs.map
                Prod.fst) = b0.reqs.map Prod.fst ++ [s.nextId] := by
              simp
            have hopenlt := hs.openLt b0 hopen
            have hpcount : pendingCount s = b0.reqs.length := by
              unfold pendingCount
              rw [hpend, List.length_map]
            refine submitInto_inv cfg f lat t s _ hv hs ?_ ?_ ?_ ?_ ?_ ?_ ?_
            · intro rid h
              rw [hmapb] at h
              rcases List.mem_append.mp h with h | h
              · have := hs.pendLt rid (by rw [hpend]; exact h)
                omega
              · have := List.mem_singleton.mp h
                omega
            · rw [hmapb, List.nodup_append]
              have hnd0 := hs.pendNodup
              rw [hpend] at hnd0
              refine ⟨hnd0, List.nodup_singleton _, ?_⟩
              intro rid hrid
              have := hs.pendLt rid (by rw [hpend]; exact hrid)
              simp only [List.mem_singleton]
              omega
            · intro rid h
              rw [hmapb] at h
              rcases List.mem_append.mp h with h | h
              · exact hs.oncePend rid (by rw [hpend]; exact h)
              · have hh := List.mem_singleton.mp h
                rw [hh]
                exact hs.freshNone s.nextId (Nat.le_refl _)
            · intro rid hridlt hnot
              rw [hmapb] at hnot
              have h1 : rid ∉ b0.reqs.map Prod.fst := fun h =>
                hnot (List.mem_append.mpr (Or.inl h))
              have h2 : rid ≠ s.nextId := fun h =>
                hnot (List.mem_append.mpr (Or.inr (List.mem_singleton.mpr h)))
              refine hs.onceDone rid (by omega) ?_
              rw [hpend]
              exact h1
            · intro rid h c hc hbad
              rw [hmapb] at h
              rcases List.mem_append.mp h with h | h
              · exact hs.pendNotCut rid (by rw [hpend]; exact h) c hc hbad
              · have hh := List.mem_singleton.mp h
                subst hh
                exact absurd (hs.cutsLt c hc _ hbad) (Nat.lt_irrefl _)
            · simp only [List.length_append, List.length_cons, List.length_nil]
              omega
            · have hfull' : pendingCount s < cfg.queue_capacity := Nat.lt_of_not_le hfull
              simp only [List.length_append, List.length_cons, List.length_nil]
              omega
  | cancel t rid =>
      simp only [step]
      cases hopen : s.openB with
      | none => exact hs
      | some b =>
          dsimp only
          by_cases hmem : rid ∈ b.reqs.map Prod.fst
          · rw [if_pos hmem]
            have hpend : pendingIds s = b.reqs.map Prod.fst := by
              unfold pendingIds
              rw [hopen]
            have hmem' : rid ∈ pendingIds s := by
              rw [hpend]
              exact hmem
            have hridlt : rid < s.nextId := hs.pendLt rid hmem'
            have honce0 : resCount s rid = 0 := hs.oncePend rid hmem'
            have hgone : ∀ c ∈ s.cuts, rid ∉ c.reqs.map Prod.fst := hs.pendNotCut rid hmem'
            have hresEq : ∀ rid', countRes (s.res ++ [(rid, Resolution.cancelled)]) rid' =
                resCount s rid' + if rid' = rid then 1 else 0 := by
              intro rid'
              rw [countRes_append]
              show resCount s rid' + _ = _
              congr 1
              unfold countRes
              by_cases h : rid' = rid
              · subst h
                simp
              · simp [List.count_cons, h]
            have hcg2 : ∀ rid', (rid', Resolution.cancelled) ∈
                s.res ++ [(rid, Resolution.cancelled)] →
                ∀ c ∈ s.cuts, rid' ∉ c.reqs.map Prod.fst := by
              intro rid' hr c hc
              rcases List.mem_append.mp hr with h | h
              · exact hs.cancelGone rid' h c hc
              · have hh := List.mem_singleton.mp h
                have : rid' = rid := congrArg Prod.fst hh
                subst this
                exact hgone c hc
            have hdone2 : ∀ rid', rid' < s.nextId →
                rid' ∉ (b.reqs.map Prod.fst).filter (fun x => x != rid) →
                countRes (s.res ++ [(rid, Resolution.cancelled)]) rid' = 1 := by
              intro rid' hlt hnot
              rw [hresEq]
              by_cases hr : rid' = rid
              · subst hr
                rw [honce0]
                simp
              · rw [if_neg hr]
                have hnp : rid' ∉ pendingIds s := by
                  rw [hpend]
                  intro hin
                  exact hnot ((mem_filter_ne _ _ _).mpr ⟨hin, hr⟩)
                rw [hs.onceDone rid' hlt hnp]
            have hpend0f : ∀ rid' ∈ (b.reqs.map Prod.fst).filter (fun x => x != rid),
                countRes (s.res ++ [(rid, Resolution.cancelled)]) rid' = 0 := by
              intro rid' h
              obtain ⟨hin, hne⟩ := (mem_filter_ne _ _ _).mp h
              rw [hresEq, if_neg hne, hs.oncePend rid' (by rw [hpend]; exact hin)]
            have hfresh2 : ∀ rid', s.nextId ≤ rid' →
                countRes (s.res ++ [(rid, Resolution.cancelled)]) rid' = 0 := by
              intro rid' hle
              have hne : rid' ≠ rid := by omega
              rw [hresEq, if_neg hne, hs.freshNone rid' hle]
            by_cases hemp : (b.reqs.filter (fun r => r.fst != rid)).isEmpty
            · rw [if_pos hemp]
              have hkeptnil : b.reqs.filter (fun r => r.fst != rid) = [] :=
                List.isEmpty_iff.mp hemp
              have hfilnil : (b.reqs.map Prod.fst).filter (fun x => x != rid) = [] := by
                rw [← map_fst_filter_ne, hkeptnil]
                rfl
              refine ⟨hs.polBounds, ?_, ?_, ?_, ?_, hfresh2, hcg2, hs.cutSizeEq,
                hs.cutTimeoutLe, hs.cutsLt, ?_, ?_, ?_⟩
              · intro rid' h
                exact absurd h (List.not_mem_nil rid')
              · exact List.nodup_nil
              · intro rid' h
                exact absurd h (List.not_mem_nil rid')
              · intro rid' hlt _
                refine hdone2 rid' hlt ?_
                rw [hfilnil]
                exact List.not_mem_nil rid'
              · intro rid' h
                exact absurd h (List.not_mem_nil rid')
              · intro b' h
                exact Option.noConfusion h
              · exact Nat.zero_le _
            · rw [if_neg hemp]
              have hpendN : pendingIds { s with
                  res := s.res ++ [(rid, Resolution.cancelled)],
                  openB := some { b with reqs := b.reqs.filter (fun r => r.fst != rid) } } =
                  (b.reqs.map Prod.fst).filter (fun x => x != rid) := by
                unfold pendingIds
                dsimp only
                exact map_fst_filter_ne b.reqs rid
              refine ⟨hs.polBounds, ?_, ?_, ?_, ?_, hfresh2, hcg2, hs.cutSizeEq,
                hs.cutTimeoutLe, hs.cutsLt, ?_, ?_, ?_⟩
              · intro rid' h
                rw [hpendN] at h
                obtain ⟨hin, -⟩ := (mem_filter_ne _ _ _).mp h
                exact hs.pendLt rid' (by rw [hpend]; exact hin)
              · rw [hpendN]
                have hnd0 := hs.pendNodup
                rw [hpend] at hnd0
                exact hnd0.filter _
              · intro rid' h
                rw [hpendN] at h
                exact hpend0f rid' h
              · intro rid' hlt hnot
                rw [hpendN] at hnot
                exact hdone2 rid' hlt hnot
              · intro rid' h c hc
                rw [hpendN] at h
                obtain ⟨hin, -⟩ := (mem_filter_ne _ _ _).mp h
                exact hs.pendNotCut rid' (by rw [hpend]; exact hin) c hc
              · intro b' h
                cases h
                have hlen := List.length_filter_le (fun r => r.fst != rid) b.reqs
                have := hs.openLt b hopen
                simp only
                omega
              · unfold pendingCount
                rw [hpendN]
                have hlen := List.length_filter_le (fun x => x != rid) (b.reqs.map Prod.fst)
                have hcap := hs.pendCap
                unfold pendingCount at hcap
                rw [hpend] at hcap
                omega
          · rw [if_neg hmem]
            exact hs
  | timerFire t =>
      simp only [step]
      cases hopen : s.openB with
      | none => exact hs
      | some b =>
          dsimp only
          by_cases htime : b.created + b.waitLimit ≤ t
          · rw [if_pos htime]
            have hpend : pendingIds s = b.reqs.map Prod.fst := by
              unfold pendingIds
              rw [hopen]
            refine cutAndDispatch_inv cfg f lat CutKind.timeoutCut t b s hv
              ?_ ?_ ?_ ?_ hs.freshNone hs.cancelGone hs.cutSizeEq hs.cutTimeoutLe
              hs.cutsLt (fun h => CutKind.noConfusion h) ?_
            · intro rid' h
              exact hs.pendLt rid' (by rw [hpend]; exact h)
            · have hnd0 := hs.pendNodup
              rw [hpend] at hnd0
              exact hnd0
            · intro rid' h
              exact hs.oncePend rid' (by rw [hpend]; exact h)
            · intro rid' hridlt hnot
              refine hs.onceDone rid' hridlt ?_
              rw [hpend]
              exact hnot
            · intro _
              exact ⟨by omega, hs.openLt b hopen⟩
          · rw [if_neg htime]
            exact hs

theorem foldl_inv (cfg : Config) (f : List Nat → Option (List Nat)) (lat : List Nat → Nat)
    (es : List Event) (s : SysState) (hv : cfg.pcfg.valid) (hs : Inv cfg s) :
    Inv cfg (es.foldl (step cfg f lat) s) := by
  induction es generalizing s with
  | nil => exact hs
  | cons e rest ih => exact ih _ (step_inv cfg f lat s e hv hs)

theorem run_inv (cfg : Config) (f : List Nat → Option (List Nat)) (lat : List Nat → Nat)
    (es : List Event) (hv : cfg.pcfg.valid) : Inv cfg (run cfg f lat es) :=
  foldl_inv cfg f lat es (initState cfg) hv (init_inv cfg hv)

theorem drain_inv (cfg : Config) (f : List Nat → Option (List Nat)) (lat : List Nat → Nat)
    (t : Nat) (s : SysState) (hv : cfg.pcfg.valid) (hs : Inv cfg s) :
    Inv cfg (drain cfg f lat t s) := by
  unfold drain
  cases hopen : s.openB with
  | none => exact hs
  | some b =>
      have hpend : pendingIds s = b.reqs.map Prod.fst := by
        unfold pendingIds
        rw [hopen]
      refine cutAndDispatch_inv cfg f lat CutKind.flushCut t b s hv
        ?_ ?_ ?_ ?_ hs.freshNone hs.cancelGone hs.cutSizeEq hs.cutTimeoutLe
        hs.cutsLt (fun h => CutKind.noConfusion h) (fun h => CutKind.noConfusion h)
      · intro rid h
        exact hs.pendLt rid (by rw [hpend]; exact h)
      · have hnd0 := hs.pendNodup
        rw [hpend] at hnd0
        exact hnd0
      · intro rid h
        exact hs.oncePend rid (by rw [hpend]; exact h)
      · intro rid hridlt hnot
        refine hs.onceDone rid hridlt ?_
        rw [hpend]
        exact hnot

theorem drain_eq_of_none (cfg : Config) (f : List Nat → Option (List Nat)) (lat : List Nat → Nat)
    (t : Nat) (s : SysState) (hnone : s.openB = none) :
    drain cfg f lat t s = s := by
  unfold drain
  rw [hnone]

theorem drain_pending_nil (cfg : Config) (f : List Nat → Option (List Nat)) (lat : List Nat → Nat)
    (t : Nat) (s : SysState) : pendingIds (drain cfg f lat t s) = [] := by
  unfold drain
  cases hopen : s.openB with
  | none =>
      unfold pendingIds
      rw [hopen]
  | some b => rfl

theorem length_filter_ne_of_nodup (l : List Nat) (rid : Nat) (hnd : l.Nodup) (hm : rid ∈ l) :
    (l.filter (fun x => x != rid)).length + 1 = l.length := by
  induction l with
  | nil => cases hm
  | cons a l ih =>
      rw [List.nodup_cons] at hnd
      by_cases h : a = rid
      · subst h
        have hfl : l.filter (fun x => x != a) = l := by
          rw [List.filter_eq_self]
          intro x hx
          rw [bne_iff_ne]
          intro hxa
          exact hnd.1 (hxa ▸ hx)
        simp [List.filter_cons, hfl]
      · have hm' : rid ∈ l := by
          rcases List.mem_cons.mp hm with h' | h'
          · exact absurd h'.symm h
          · exact h'
        have hih := ih hnd.2 hm'
        simp only [List.filter_cons, bne_iff_ne, List.length_cons]
        rw [if_pos h]
        simp only [List.length_cons]
        omega

/-- C1: for every sequence of submissions (and cancellations and timer firings),
each request admitted by the RequestQueue — identifiers below the final
`nextId`; rejected submissions admit nothing — has its completion slot resolved
exactly once, with a result, an error, or a cancellation, once the endpoint has
drained: never zero times and never twice. -/
theorem c1_resolved_exactly_once (cfg : Config) (f : List Nat → Option (List Nat))
    (lat : List Nat → Nat) (es : List Event) (t : Nat) (rid : Nat)
    (hv : cfg.pcfg.valid)
    (hrid : rid < (drain cfg f lat t (run cfg f lat es)).nextId) :
    resCount (drain cfg f lat t (run cfg f lat es)) rid = 1 := by
  have hinv := drain_inv cfg f lat t (run cfg f lat es) hv (run_inv cfg f lat es hv)
  refine hinv.onceDone rid hrid ?_
  rw [drain_pending_nil]
  exact List.not_mem_nil rid

theorem c1_witness :
    cfgDemo.pcfg.valid ∧
    1 < (drain cfgDemo fDemo latDemo 100 (run cfgDemo fDemo latDemo esOpen)).nextId ∧
    resCount (drain cfgDemo fDemo latDemo 100 (run cfgDemo fDemo latDemo esOpen)) 1 = 1 :=
  ⟨by decide, by decide,
   c1_resolved_exactly_once cfgDemo fDemo latDemo esOpen 100 1 (by decide) (by decide)⟩

/-- C2: for every dispatched batch, if the inference collaborator fails
(returns `none`) or returns an output sequence whose length differs from the
number of inputs supplied, every request in the batch is resolved with the same
error — `BatchSizeMismatchError` in the length-mismatch case,
`BatchDispatchError` on inference failure — and no request receives a partial
result: an `ok` resolution exists only when the collaborator succeeded with a
full-length output sequence. -/
theorem c2_batch_failure_atomic (f : List Nat → Option (List Nat))
    (reqs : List (Nat × Nat)) :
    (f (reqs.map Prod.snd) = none →
      dispatch f reqs = reqs.map (fun r => (r.fst, Resolution.err Err.batchDispatch))) ∧
    (∀ outs, f (reqs.map Prod.snd) = some outs →
      outs.length ≠ (reqs.map Prod.snd).length →
      dispatch f reqs = reqs.map (fun r => (r.fst, Resolution.err Err.batchSizeMismatch))) ∧
    (∀ rid v, (rid, Resolution.ok v) ∈ dispatch f reqs →
      ∃ outs, f (reqs.map Prod.snd) = some outs ∧
        outs.length = (reqs.map Prod.snd).length) := by
  refine ⟨dispatch_none f reqs, fun outs h hl => dispatch_mismatch f reqs outs h hl, ?_⟩
  intro rid v hmem
  unfold dispatch at hmem
  cases hf : f (reqs.map Prod.snd) with
  | none =>
      rw [hf] at hmem
      obtain ⟨r, -, hr⟩ := List.mem_map.mp hmem
      exact absurd (congrArg Prod.snd hr) (fun h => Resolution.noConfusion h)
  | some outs =>
      rw [hf] at hmem
      dsimp only at hmem
      split at hmem
      · exact ⟨outs, rfl, by assumption⟩
      · obtain ⟨r, -, hr⟩ := List.mem_map.mp hmem
        exact absurd (congrArg Prod.snd hr) (fun h => Resolution.noConfusion h)

theorem c2_witness :
    dispatch (fun _ => none) [(0, 7)] = [(0, Resolution.err Err.batchDispatch)] ∧
    dispatch (fun _ => some [1, 2]) [(0, 7)] = [(0, Resolution.err Err.batchSizeMismatch)] :=
  ⟨(c2_batch_failure_atomic (fun _ => none) [(0, 7)]).1 rfl,
   (c2_batch_failure_atomic (fun _ => some [1, 2]) [(0, 7)]).2.1 [1, 2] rfl (by decide)⟩

/-- C3: for every batch successfully dispatched (the collaborator returned a
full-length output sequence), the result delivered to each request is the
collaborator's output at the same ordinal position as that request's position
in the batch: the request at position `i` is resolved with `ok outs[i]`. -/
theorem c3_positional_results (f : List Nat → Option (List Nat))
    (reqs : List (Nat × Nat)) (outs : List Nat)
    (h : f (reqs.map Prod.snd) = some outs)
    (hl : outs.length = (reqs.map Prod.snd).length)
    (i : Nat) (r : Nat × Nat) (o : Nat)
    (hr : reqs[i]? = some r) (ho : outs[i]? = some o) :
    (dispatch f reqs)[i]? = some (r.fst, Resolution.ok o) := by
  rw [dispatch_success f reqs outs h hl]
  exact zipWith_getElem? _ reqs outs i r o hr ho

theorem c3_witness :
    (dispatch fDemo [(0, 3), (1, 4)])[1]? = some (1, Resolution.ok 5) :=
  c3_positional_results fDemo [(0, 3), (1, 4)] [4, 5] rfl (by decide) 1 (1, 4) 5
    (by decide) (by decide)

/-- C4: every batch the scheduler cuts because its size reached the threshold
(a size-cut) has size equal to `policy.max_batch_size` at the moment of cut
(recorded as `thSize`); and in the §8 scenario — `max_batch_size = 4`, four
requests submitted within 1 ms — exactly one batch is dispatched, of size 4,
via a size-cut, so the collaborator is called once, with those 4 inputs (each
cut record is exactly one `dispatch` call on its `reqs`). -/
theorem c4_size_cut_full :
    (∀ (cfg : Config) (f : List Nat → Option (List Nat)) (lat : List Nat → Nat)
        (es : List Event), cfg.pcfg.valid →
        ∀ c ∈ (run cfg f lat es).cuts, c.kind = CutKind.sizeCut →
          c.reqs.length = c.thSize) ∧
    (run cfgDemo fDemo latDemo esFour).cuts.map
        (fun c => (c.kind, c.reqs.map Prod.snd, c.thSize)) =
      [(CutKind.sizeCut, [10, 11, 12, 13], 4)] := by
  constructor
  · intro cfg f lat es hv c hc hk
    exact (run_inv cfg f lat es hv).cutSizeEq c hc hk
  · decide

theorem c4_witness :
    ({ kind := CutKind.sizeCut, reqs := [(0, 10), (1, 11), (2, 12), (3, 13)],
       created := 0, time := 1, thSize := 4, thWait := 50 } : CutRecord).reqs.length =
      ({ kind := CutKind.sizeCut, reqs := [(0, 10), (1, 11), (2, 12), (3, 13)],
         created := 0, time := 1, thSize := 4, thWait := 50 } : CutRecord).thSize :=
  c4_size_cut_full.1 cfgDemo fDemo latDemo esFour (by decide) _ (by decide) (by decide)

/-- C5: every batch the scheduler cuts because the wait-timer fired (a
timeout-cut) has, at the moment of cut, elapsed time since its creation
timestamp at least its wait-timer duration (`policy.max_wait_time` when the
timer was started) and size strictly below `policy.max_batch_size`; and when
the size and timeout conditions become true simultaneously at a submission,
the cut performed is a size-cut — size-cut takes precedence. -/
theorem c5_timeout_cut :
    (∀ (cfg : Config) (f : List Nat → Option (List Nat)) (lat : List Nat → Nat)
        (es : List Event), cfg.pcfg.valid →
        ∀ c ∈ (run cfg f lat es).cuts, c.kind = CutKind.timeoutCut →
          c.thWait ≤ c.time - c.created ∧ c.reqs.length < c.thSize) ∧
    (∀ (cfg : Config) (f : List Nat → Option (List Nat)) (lat : List Nat → Nat)
        (s : SysState) (t p : Nat) (b : OpenBatch),
        s.openB = some b →
        pendingCount s < cfg.queue_capacity →
        s.pol.max_batch_size ≤ b.reqs.length + 1 →
        b.created + b.waitLimit ≤ t →
        ∃ c, (step cfg f lat s (Event.submit t p)).cuts = s.cuts ++ [c] ∧
          c.kind = CutKind.sizeCut) := by
  constructor
  · intro cfg f lat es hv c hc hk
    exact (run_inv cfg f lat es hv).cutTimeoutLe c hc hk
  · intro cfg f lat s t p b hopen hcap hsz _htime
    simp only [step]
    rw [if_neg (Nat.not_le.mpr hcap), hopen]
    dsimp only
    unfold submitInto
    rw [if_pos (by simpa using hsz)]
    exact ⟨_, rfl, rfl⟩

theorem c5_witness :
    (({ kind := CutKind.timeoutCut, reqs := [(0, 20), (1, 21)], created := 0,
        time := 50, thSize := 4, thWait := 50 } : CutRecord).thWait ≤
        ({ kind := CutKind.timeoutCut, reqs := [(0, 20), (1, 21)], created := 0,
           time := 50, thSize := 4, thWait := 50 } : CutRecord).time -
          ({ kind := CutKind.timeoutCut, reqs := [(0, 20), (1, 21)], created := 0,
             time := 50, thSize := 4, thWait := 50 } : CutRecord).created ∧
      ({ kind := CutKind.timeoutCut, reqs := [(0, 20), (1, 21)], created := 0,
         time := 50, thSize := 4, thWait := 50 } : CutRecord).reqs.length <
        ({ kind := CutKind.timeoutCut, reqs := [(0, 20), (1, 21)], created := 0,
           time := 50, thSize := 4, thWait := 50 } : CutRecord).thSize) ∧
    (∃ c, (step cfgDemo fDemo latDemo (run cfgDemo fDemo latDemo
        [Event.submit 0 1, Event.submit 0 2, Event.submit 0 3]) (Event.submit 60 4)).cuts =
        (run cfgDemo fDemo latDemo
          [Event.submit 0 1, Event.submit 0 2, Event.submit 0 3]).cuts ++ [c] ∧
      c.kind = CutKind.sizeCut) :=
  ⟨c5_timeout_cut.1 cfgDemo fDemo latDemo esTwo (by decide) _ (by decide) (by decide),
   c5_timeout_cut.2 cfgDemo fDemo latDemo _ 60 4
     { reqs := [(0, 1), (1, 2), (2, 3)], created := 0, waitLimit := 50 }
     (by decide) (by decide) (by decide) (by decide)⟩

/-- C6: a submission made while the RequestQueue already holds
`queue_capacity` requests fails immediately with `QueueFullError` — the step is
a total function that returns at once, recording the rejection and changing
nothing else — and the queue occupancy never exceeds the configured bound on
any run. -/
theorem c6_queue_full :
    (∀ (cfg : Config) (f : List Nat → Option (List Nat)) (lat : List Nat → Nat)
        (s : SysState) (t p : Nat), pendingCount s = cfg.queue_capacity →
        step cfg f lat s (Event.submit t p) =
          { s with rejects := s.rejects ++ [(t, Err.queueFull)] }) ∧
    (∀ (cfg : Config) (f : List Nat → Option (List Nat)) (lat : List Nat → Nat)
        (es : List Event), cfg.pcfg.valid →
        pendingCount (run cfg f lat es) ≤ cfg.queue_capacity) := by
  constructor
  · intro cfg f lat s t p h
    simp only [step]
    rw [if_pos (le_of_eq h.symm)]
  · intro cfg f lat es hv
    exact (run_inv cfg f lat es hv).pendCap

theorem c6_witness :
    pendingCount (run cfgSmall fDemo latDemo [Event.submit 0 5]) =
      cfgSmall.queue_capacity ∧
    step cfgSmall fDemo latDemo (run cfgSmall fDemo latDemo [Event.submit 0 5])
        (Event.submit 1 6) =
      { run cfgSmall fDemo latDemo [Event.submit 0 5] with
          rejects := (run cfgSmall fDemo latDemo [Event.submit 0 5]).rejects ++
            [(1, Err.queueFull)] } ∧
    pendingCount (run cfgSmall fDemo latDemo [Event.submit 0 5, Event.submit 1 6]) ≤
      cfgSmall.queue_capacity :=
  ⟨by decide,
   c6_queue_full.1 cfgSmall fDemo latDemo
     (run cfgSmall fDemo latDemo [Event.submit 0 5]) 1 6 (by decide),
   c6_queue_full.2 cfgSmall fDemo latDemo [Event.submit 0 5, Event.submit 1 6] (by decide)⟩

/-- C7: for every sequence of `observe(batch_size, wait_time,
dispatch_latency)` calls, including arbitrarily extreme latency values, the
thresholds returned by `current_thresholds()` satisfy
`min_batch_size ≤ max_batch_size ≤ hard_max_batch_size` and
`min_wait_time ≤ max_wait_time ≤ hard_max_wait_time`. -/
theorem c7_thresholds_bounded (c : PolicyConfig) (hv : c.valid)
    (obs : List (Nat × Nat × Nat)) :
    c.min_batch_size ≤ (observeAll c (initPolicy c) obs).current_thresholds.1 ∧
    (observeAll c (initPolicy c) obs).current_thresholds.1 ≤ c.hard_max_batch_size ∧
    c.min_wait_time ≤ (observeAll c (initPolicy c) obs).current_thresholds.2 ∧
    (observeAll c (initPolicy c) obs).current_thresholds.2 ≤ c.hard_max_wait_time :=
  observeAll_inBounds c (initPolicy c) obs hv (initPolicy_inBounds c hv)

theorem c7_witness :
    cfgPol.valid ∧
    (cfgPol.min_batch_size ≤
        (observeAll cfgPol (initPolicy cfgPol) obsExtreme).current_thresholds.1 ∧
      (observeAll cfgPol (initPolicy cfgPol) obsExtreme).current_thresholds.1 ≤
        cfgPol.hard_max_batch_size ∧
      cfgPol.min_wait_time ≤
        (observeAll cfgPol (initPolicy cfgPol) obsExtreme).current_thresholds.2 ∧
      (observeAll cfgPol (initPolicy cfgPol) obsExtreme).current_thresholds.2 ≤
        cfgPol.hard_max_wait_time) :=
  ⟨by decide, c7_thresholds_bounded cfgPol (by decide) obsExtreme⟩

/-- C8: a request cancelled before its batch is cut is removed from the open
batch — the pending identifiers become exactly the old ones with the cancelled
identifier filtered out, and the occupancy decrements by exactly one (a natural
number, so never below zero) — so it no longer counts toward the size
threshold; and on every run, a cancelled request is absent from every
dispatched batch's request list, hence from the input sequence handed to the
collaborator (each cut's inputs are exactly `c.reqs.map Prod.snd`), so the
collaborator is never invoked for that slot. -/
theorem c8_cancel_removed :
    (∀ (cfg : Config) (f : List Nat → Option (List Nat)) (lat : List Nat → Nat)
        (s : SysState) (t rid : Nat) (b : OpenBatch),
        s.openB = some b → rid ∈ b.reqs.map Prod.fst → (pendingIds s).Nodup →
        pendingIds (step cfg f lat s (Event.cancel t rid)) =
          (pendingIds s).filter (fun x => x != rid) ∧
        pendingCount (step cfg f lat s (Event.cancel t rid)) + 1 = pendingCount s ∧
        (step cfg f lat s (Event.cancel t rid)).res =
          s.res ++ [(rid, Resolution.cancelled)]) ∧
    (∀ (cfg : Config) (f : List Nat → Option (List Nat)) (lat : List Nat → Nat)
        (es : List Event), cfg.pcfg.valid → ∀ rid,
        (rid, Resolution.cancelled) ∈ (run cfg f lat es).res →
        ∀ c ∈ (run cfg f lat es).cuts, rid ∉ c.reqs.map Prod.fst) := by
  constructor
  · intro cfg f lat s t rid b hopen hmem hnd
    have hpend : pendingIds s = b.reqs.map Prod.fst := by
      unfold pendingIds
      rw [hopen]
    have hmemp : rid ∈ pendingIds s := by
      rw [hpend]
      exact hmem
    simp only [step]
    rw [hopen]
    dsimp only
    rw [if_pos hmem]
    by_cases hemp : (b.reqs.filter (fun r => r.fst != rid)).isEmpty
    · rw [if_pos hemp]
      have hkept : b.reqs.filter (fun r => r.fst != rid) = [] :=
        List.isEmpty_iff.mp hemp
      have hp1 : ([] : List Nat) = (pendingIds s).filter (fun x => x != rid) := by
        rw [hpend, ← map_fst_filter_ne, hkept]
        rfl
      refine ⟨hp1, ?_, rfl⟩
      unfold pendingCount
      show ([] : List Nat).length + 1 = _
      rw [hp1]
      exact length_filter_ne_of_nodup (pendingIds s) rid hnd hmemp
    · rw [if_neg hemp]
      have hp1 : (b.reqs.filter (fun r => r.fst != rid)).map Prod.fst =
          (pendingIds s).filter (fun x => x != rid) := by
        rw [map_fst_filter_ne, hpend]
      refine ⟨hp1, ?_, rfl⟩
      unfold pendingCount
      show ((b.reqs.filter (fun r => r.fst != rid)).map Prod.fst).length + 1 = _
      rw [hp1]
      exact length_filter_ne_of_nodup (pendingIds s) rid hnd hmemp
  · intro cfg f lat es hv rid hres c hc
    exact (run_inv cfg f lat es hv).cancelGone rid hres c hc

theorem c8_witness :
    (pendingIds (step cfgDemo fDemo latDemo (run cfgDemo fDemo latDemo
        [Event.submit 0 7, Event.submit 0 8]) (Event.cancel 1 0)) =
      (pendingIds (run cfgDemo fDemo latDemo
        [Event.submit 0 7, Event.submit 0 8])).filter (fun x => x != 0) ∧
      pendingCount (step cfgDemo fDemo latDemo (run cfgDemo fDemo latDemo
        [Event.submit 0 7, Event.submit 0 8]) (Event.cancel 1 0)) + 1 =
        pendingCount (run cfgDemo fDemo latDemo
          [Event.submit 0 7, Event.submit 0 8]) ∧
      (step cfgDemo fDemo latDemo (run cfgDemo fDemo latDemo
        [Event.submit 0 7, Event.submit 0 8]) (Event.cancel 1 0)).res =
        (run cfgDemo fDemo latDemo [Event.submit 0 7, Event.submit 0 8]).res ++
          [(0, Resolution.cancelled)]) ∧
    (∀ c ∈ (run cfgDemo fDemo latDemo esCancel).cuts, 0 ∉ c.reqs.map Prod.fst) :=
  ⟨c8_cancel_removed.1 cfgDemo fDemo latDemo
     (run cfgDemo fDemo latDemo [Event.submit 0 7, Event.submit 0 8]) 1 0
     { reqs := [(0, 7), (1, 8)], created := 0, waitLimit := 50 }
     (by decide) (by decide) (by decide),
   c8_cancel_removed.2 cfgDemo fDemo latDemo esCancel (by decide) 0 (by decide)⟩

end MicroBatch

namespace QuickStart

/-- C9: the tutorial's prediction service is deterministic across serving
modes as recorded by the notebook: every invocation path exercised — the
`bentoml.load`-ed service, the pip-installed package (in-process and via its
CLI `run` command), and the deployed AWS Lambda HTTP endpoint — was given the
fixed input `[[5.1, 3.5, 1.4, 0.2]]` and returned the same prediction `[0]`. -/
theorem c9_deterministic_across_modes :
    ∀ p q : InvokePath,
      recordedInput p = [[5.1, 3.5, 1.4, 0.2]] ∧
      recordedPrediction p = [0] ∧
      recordedPrediction p = recordedPrediction q := by
  intro p q
  cases p <;> cases q <;> exact ⟨rfl, rfl, rfl⟩

end QuickStart
